import Mathlib

/-!
Shallow embedding of the EasyWork graph runtime core
(`src/runtime/core.h`, `src/runtime/types/type_system.h`) in Lean 4,
together with theorems settling the frozen specification claims.

Modelling conventions:
* `std::type_index` keys are modelled as `Nat` (`TypeKey`); payload data is an
  abstract `Int` tagged with its type key (`TVal`).
* `size_t` method ids are genuine FNV-1a hashes of the method names, computed
  by `hashString` exactly as `hash_string` in the source (mod 2^64).
* C++ exceptions are modelled with `Except DispatchError`; the distinct
  `std::runtime_error` messages thrown by the core are represented by the
  constructors of `DispatchError` (`Node::Open`/`Node::Close` classify the
  caught error by whether its message contains "Method not found"; in the
  model this is the `methodNotFound` constructor).
* A method body (`Ret (Derived::*)(Args...)`) is modelled as a function from
  the cast argument values to `Except DispatchError (Option TVal × Bool)`:
  `none` models a `void` return, `some v` a returned value, the `Bool` records
  whether the body called `Node::Stop()` on the graph, and `Except.error`
  models the body throwing.
-/

-- ========== Compile-time string hashing (hash_string, FNV-1a) ==========

/-- FNV-1a hash over the characters of a string, with 64-bit wrap-around
multiplication, exactly as `hash_string` in `node_registry.h`/`type_system.h`. -/
def hashString (s : String) : Nat :=
  s.data.foldl (fun h c => ((h ^^^ c.toNat) * 1099511628211) % (2 ^ 64))
    14695981039346656037

/-- `ID_FORWARD = hash_string("forward")`. -/
def ID_FORWARD : Nat := hashString "forward"

/-- `ID_OPEN = hash_string("Open")`. -/
def ID_OPEN : Nat := hashString "Open"

/-- `ID_CLOSE = hash_string("Close")`. -/
def ID_CLOSE : Nat := hashString "Close"

-- ========== TypeInfo / payload values ==========

/-- A runtime type descriptor (`TypeInfo` / `std::type_index`), modelled by its
stable key. -/
abbrev TypeKey := Nat

/-- The canonical void descriptor (`TypeInfo()` defaults to `typeid(void)`). -/
def tVoid : TypeKey := 0

/-- Descriptor of `int` (int32). -/
def tInt32 : TypeKey := 1

/-- Descriptor of `int64_t`. -/
def tInt64 : TypeKey := 2

/-- Descriptor of `float`. -/
def tFloat32 : TypeKey := 3

/-- Descriptor of `double`. -/
def tFloat64 : TypeKey := 4

/-- Descriptor of `std::string`. -/
def tString : TypeKey := 5

/-- A typed payload held in a `std::any`: the dynamic type key plus abstract
value data. -/
structure TVal where
  ty : TypeKey
  data : Int
deriving Repr, DecidableEq

-- ========== Packet ==========

/-- `Packet`: a type-erased payload (`shared_ptr<std::any>`, `none` when the
pointer is null or the `any` is empty) plus an `int64_t` timestamp. -/
structure Packet where
  payload : Option TVal := none
  timestamp : Int := 0
deriving Repr, DecidableEq

/-- `Packet::has_value()`. -/
def Packet.has_value (p : Packet) : Bool := p.payload.isSome

/-- `Packet::type()`: the payload type, or the void descriptor when empty. -/
def Packet.type (p : Packet) : TypeKey :=
  match p.payload with
  | none => tVoid
  | some v => v.ty

/-- `Packet::Empty()`. -/
def Packet.Empty : Packet := {}

/-- `Packet::From(val, ts)`. -/
def Packet.From (v : TVal) (ts : Int) : Packet := ⟨some v, ts⟩

instance : Inhabited Packet := ⟨Packet.Empty⟩

-- ========== Errors ==========

/-- The distinct `std::runtime_error` kinds thrown by the runtime core,
identified by their message text in the source. -/
inductive DispatchError
  /-- "Method not found in registry: ..." (thrown by `BaseNode::invoke`). -/
  | methodNotFound
  /-- "Argument count mismatch: ..." (thrown by the `CreateInvoker` lambda). -/
  | argCountMismatch
  /-- "Argument i type mismatch: ..." (thrown by `detail::CastArg`, wrapping
  the `Packet::cast` failure for argument index `i`). -/
  | typeMismatch (index : Nat)
  /-- An exception thrown by the user method body itself. -/
  | userError (code : Nat)
  /-- "Tuple type not registered for TupleGetNode". -/
  | tupleNotRegistered
  /-- "Tuple index out of range for TupleGetNode". -/
  | tupleIndexOutOfRange
  /-- "Unsupported tuple index for TupleGetNode"
  (`detail::CreateTupleGetNodeForIndex` fold found no matching index). -/
  | tupleIndexUnsupported
deriving Repr, DecidableEq

-- ========== Packet::cast ==========

/-- `Packet::cast<T>()` (type_system.h): succeeds only when the payload is
present and its dynamic type exactly equals the requested type; there is no
converter lookup and no numeric coercion on this path. -/
def Packet.cast (p : Packet) (target : TypeKey) : Except DispatchError TVal :=
  match p.payload with
  | none => .error (.typeMismatch 0)
  | some v => if v.ty = target then .ok v else .error (.typeMismatch 0)

/-- `detail::CastArg<ArgT>(p, index)`: `p.cast<decay_t<ArgT>>()`, rethrown as a
positional "Argument index type mismatch" error. -/
def castArg (p : Packet) (target : TypeKey) (index : Nat) :
    Except DispatchError TVal :=
  match p.cast target with
  | .ok v => .ok v
  | .error _ => .error (.typeMismatch index)

/-- Cast each input packet to the corresponding declared argument type, in
order, failing on the first mismatch (the pack expansion in
`detail::InvokeImpl`). `index` is the position of the first packet. -/
def castArgs (index : Nat) :
    List Packet → List TypeKey → Except DispatchError (List TVal)
  | [], [] => .ok []
  | p :: ps, t :: ts => do
      let v ← castArg p t index
      let rest ← castArgs (index + 1) ps ts
      .ok (v :: rest)
  | _, _ => .error .argCountMismatch

-- ========== TypeConverterRegistry ==========

/-- One registered converter: (source type, target type, payload transform). -/
structure ConverterEntry where
  fromTy : TypeKey
  toTy : TypeKey
  fn : Int → Int

/-- `TypeConverterRegistry`: the process-global table of pairwise converters. -/
structure TypeConverterRegistry where
  converters : List ConverterEntry

/-- `TypeConverterRegistry::has_converter(from, to)`. -/
def TypeConverterRegistry.has_converter (r : TypeConverterRegistry)
    (f t : TypeKey) : Bool :=
  r.converters.any fun e => f = e.fromTy && t = e.toTy

/-- `TypeConverterRegistry::convert(from, from_type, to_type)`: apply the first
registered converter for the pair, `none` when no converter is registered. -/
def TypeConverterRegistry.convert (r : TypeConverterRegistry) (v : TVal)
    (target : TypeKey) : Option TVal :=
  match r.converters.find? (fun e => v.ty = e.fromTy && target = e.toTy) with
  | some e => some ⟨target, e.fn v.data⟩
  | none => none

/-- The four numeric descriptors of the spec's built-in coercion clause. -/
def numericKeys : List TypeKey := [tInt32, tInt64, tFloat32, tFloat64]

/-- Modelled from the spec: the §3 ValueBox cast policy ("1. exact descriptor
match, 2. registered converter, 3. built-in numeric coercion among
{int32, int64, float32, float64}, 4. otherwise fail"). No function in the
repository implements this policy on the `Packet` dispatch path; this
definition exists only to be compared against the code's `Packet.cast`.
The value-level effect of a static_cast between numeric types is abstracted
as the identity on the payload data. -/
def specCast (r : TypeConverterRegistry) (p : Packet) (target : TypeKey) :
    Except DispatchError TVal :=
  match p.payload with
  | none => .error (.typeMismatch 0)
  | some v =>
    if v.ty = target then .ok v
    else match r.convert v target with
    | some w => .ok w
    | none =>
      if v.ty ∈ numericKeys && target ∈ numericKeys then
        .ok ⟨target, v.data⟩
      else
        .error (.typeMismatch 0)

-- ========== MethodMeta / invoker ==========

/-- `MethodMeta`: reflection metadata plus the type-erased invoker body. `run`
models the member function: it receives the cast argument values and yields
`(return value?, called Stop?)` or throws. -/
structure MethodMeta where
  argTypes : List TypeKey
  returnType : TypeKey
  run : List TVal → Except DispatchError (Option TVal × Bool)

/-- The class-level method registry: method id → `MethodMeta`
(`Derived::method_registry()`). -/
abbrev MethodRegistry := List (Nat × MethodMeta)

/-- `unordered_map::find` on the method registry. -/
def lookupMethod (reg : MethodRegistry) (id : Nat) : Option MethodMeta :=
  match reg.find? (fun e => e.1 = id) with
  | some e => some e.2
  | none => none

/-- The `CreateInvoker` lambda: check the argument count, cast each packet to
its declared argument type, run the member function, and wrap the return in a
`Packet` (`Packet::Empty()` for `void`, otherwise `Packet::From(result, 0)`).
The `Bool` records whether the body called `Stop()`. -/
def invokeMeta (meta : MethodMeta) (inputs : List Packet) :
    Except DispatchError (Packet × Bool) :=
  if inputs.length ≠ meta.argTypes.length then .error .argCountMismatch
  else do
    let args ← castArgs 0 inputs meta.argTypes
    let (ret, stop) ← meta.run args
    match ret with
    | none => .ok (Packet.Empty, stop)
    | some v => .ok (Packet.From v 0, stop)

/-- `BaseNode::invoke(method_id, inputs)`: registry lookup (throwing
"Method not found in registry" on a miss) followed by the invoker. -/
def invokeById (reg : MethodRegistry) (id : Nat) (inputs : List Packet) :
    Except DispatchError (Packet × Bool) :=
  match lookupMethod reg id with
  | none => .error .methodNotFound
  | some meta => invokeMeta meta inputs

-- ========== Node state ==========

/-- Per-method dispatch policy (`Node::MethodConfig`). -/
structure MethodConfig where
  sync_enabled : Bool := false
  max_queue : Nat := 0
deriving Repr, DecidableEq

/-- The engine-owned mutable state of a `Node`. The class-level
`MethodRegistry` is static in the source and is therefore passed separately
to the functions that need it. `portMethodIds` is the `method_id` column of
`port_map_` (the port index is the list position, as in the source). -/
structure NodeState where
  portMethodIds : List Nat := []
  buffers : List (List Packet) := []
  methodConfigs : List (Nat × MethodConfig) := []
  methodOrder : List Nat := []
  methodOrderCustomized : Bool := false
  outputPacket : Packet := Packet.Empty
  opened : Bool := false
deriving Repr, DecidableEq

/-- `Node::GetMethodConfig`: map lookup with default-constructed fallback. -/
def getMethodConfig (cfgs : List (Nat × MethodConfig)) (id : Nat) :
    MethodConfig :=
  match cfgs.find? (fun e => e.1 = id) with
  | some e => e.2
  | none => {}

-- ========== Method order ==========

/-- `Node::EnsureForwardLast`: erase every occurrence of `ID_FORWARD`, then
append it at the back when the remaining list is non-empty. -/
def ensureForwardLast (order : List Nat) : List Nat :=
  let removed := order.filter (fun id => id ≠ ID_FORWARD)
  if removed.isEmpty then removed else removed ++ [ID_FORWARD]

/-- Insert an id immediately before the first occurrence of `ID_FORWARD`
(`method_order_.insert(forward_it, method_id)`); append when absent. -/
def insertBeforeForward (id : Nat) : List Nat → List Nat
  | [] => [id]
  | x :: xs =>
    if x = ID_FORWARD then id :: x :: xs else x :: insertBeforeForward id xs

/-- `Node::RegisterMethodOrder(method_id)` (the default-order builder invoked
by `add_upstream` when the order was not customized). -/
def registerMethodOrder (order : List Nat) (id : Nat) : List Nat :=
  if id ∈ order then order
  else if id = ID_FORWARD then order ++ [id]
  else
    ensureForwardLast
      (if ID_FORWARD ∈ order then insertBeforeForward id order
       else order ++ [id])

/-- The id resolution used by `Node::SetMethodOrder` / `SetMethodSync` /
`SetMethodQueueSize`: empty or "forward" maps to `ID_FORWARD`, anything else
to its hash. -/
def methodIdOf (name : String) : Nat :=
  if name = "" ∨ name = "forward" then ID_FORWARD else hashString name

/-- `Node::SetMethodOrder(methods)`: rebuild the order from the given names,
deduplicating, then `EnsureForwardLast()` (which appends `ID_FORWARD` whenever
the remaining list is non-empty, present in the input or not). -/
def setMethodOrder (names : List String) : List Nat :=
  ensureForwardLast
    (names.foldl
      (fun acc name =>
        let id := methodIdOf name
        if id ∈ acc then acc else acc ++ [id])
      [])

/-- `Node::add_upstream(n, method)`: append a port bound to the method id
(empty name means `ID_FORWARD`) and an empty buffer; extend the default
method order unless it was customized. The upstream node pointer itself is
not part of the engine state modelled here (the upstream's output slot is
passed to `bufferPhase` at dispatch time). -/
def addUpstream (s : NodeState) (method : String) : NodeState :=
  let id := if method = "" then ID_FORWARD else hashString method
  { s with
    portMethodIds := s.portMethodIds ++ [id]
    buffers := s.buffers ++ [[]]
    methodOrder :=
      if s.methodOrderCustomized then s.methodOrder
      else registerMethodOrder s.methodOrder id }

/-- `Node::EffectiveMethodOrder`: the stored order, or `[ID_FORWARD]` when it
is empty. -/
def effectiveMethodOrder (order : List Nat) : List Nat :=
  if order.isEmpty then [ID_FORWARD] else order

-- ========== Input buffering ==========

/-- Pop from the front while the buffer is longer than `k`
(the `while (size > max_queue) pop_front()` loop). -/
def trimToMax (k : Nat) : List Packet → List Packet
  | [] => []
  | p :: rest =>
    if rest.length + 1 > k then trimToMax k rest else p :: rest

/-- One port's step of `Node::BufferPortInputs`: skip when the upstream output
slot has no value; otherwise append it and honor `max_queue` when positive. -/
def bufferOne (cfg : MethodConfig) (buf : List Packet) (pkt : Packet) :
    List Packet :=
  if !pkt.has_value then buf
  else
    let appended := buf ++ [pkt]
    if cfg.max_queue > 0 then trimToMax cfg.max_queue appended else appended

/-- Combine three lists position-wise (helper for the indexed loop in
`BufferPortInputs`). -/
def zipWith3 (f : α → β → γ → δ) : List α → List β → List γ → List δ
  | a :: as_, b :: bs, c :: cs => f a b c :: zipWith3 f as_ bs cs
  | _, _, _ => []

/-- Pad the buffer list with empty FIFOs up to the port count
(`Node::EnsurePortBufferSize`). -/
def padBuffers (bufs : List (List Packet)) (n : Nat) : List (List Packet) :=
  if bufs.length < n then bufs ++ List.replicate (n - bufs.length) [] else bufs

/-- `EnsurePortBufferSize()` followed by `BufferPortInputs()`: for each port
`i`, read the i-th upstream's output slot and buffer it. `upOuts` carries the
`output_packet_` of each upstream (a null upstream pointer is represented by
an empty packet: both are skipped identically). -/
def bufferPhase (s : NodeState) (upOuts : List Packet) : NodeState :=
  let bufs := padBuffers s.buffers s.portMethodIds.length
  { s with
    buffers :=
      zipWith3
        (fun id buf pkt => bufferOne (getMethodConfig s.methodConfigs id) buf pkt)
        s.portMethodIds bufs upOuts }

-- ========== Per-method dispatch helpers ==========

/-- `Node::PortsForMethod`: the indices of the ports bound to the method. -/
def portsForMethod (portIds : List Nat) (id : Nat) : List Nat :=
  ((List.range portIds.length).filter (fun i => portIds.get? i = some id))

/-- `Node::PortsHaveData`: every listed port exists and has a non-empty
buffer. -/
def portsHaveData (bufs : List (List Packet)) (ports : List Nat) : Bool :=
  ports.all fun i =>
    match bufs.get? i with
    | some b => !b.isEmpty
    | none => false

/-- Front timestamp of port `i` (guarded by `portsHaveData` at the call
sites; 0 is a junk value for the out-of-range case the source never hits). -/
def frontTs (bufs : List (List Packet)) (i : Nat) : Int :=
  match bufs.get? i with
  | some (p :: _) => p.timestamp
  | _ => 0

/-- `Node::MinTimestamp` over the listed ports' front packets. -/
def minTimestamp (bufs : List (List Packet)) (ports : List Nat) : Int :=
  let m := ports.foldl (fun acc i => min acc (frontTs bufs i)) (2 ^ 63 - 1)
  if m = 2 ^ 63 - 1 then 0 else m

/-- `Node::MaxTimestamp` over the listed ports' front packets. -/
def maxTimestamp (bufs : List (List Packet)) (ports : List Nat) : Int :=
  ports.foldl (fun acc i => max acc (frontTs bufs i)) 0

/-- Apply `f` to the element at index `i`, when it exists. -/
def modifyIdx (f : α → α) : Nat → List α → List α
  | _, [] => []
  | 0, x :: xs => f x :: xs
  | n + 1, x :: xs => x :: modifyIdx f n xs

/-- Pop the front of one buffer when its front timestamp equals `minTs`
(the body of the `DropEarliest` loop). -/
def dropFrontIfMin (minTs : Int) : List Packet → List Packet
  | [] => []
  | p :: rest => if p.timestamp = minTs then rest else p :: rest

/-- `Node::DropEarliest(ports, min_ts)`. -/
def dropEarliest (bufs : List (List Packet)) (ports : List Nat)
    (minTs : Int) : List (List Packet) :=
  ports.foldl (fun bs i => modifyIdx (dropFrontIfMin minTs) i bs) bufs

-- ========== Dispatch engine ==========

/-- The mutable locals of one `RunDispatch` pass: the buffer array, the output
slot as written so far, the `output_produced` flag, and the graph's
`keep_running` flag (which an invoked method body may clear via `Stop()`). -/
structure PassState where
  buffers : List (List Packet)
  output : Packet
  outputProduced : Bool
  keep : Bool
deriving Repr, DecidableEq

/-- Front packet of port `i` (guarded by `portsHaveData` at the call site). -/
def frontPacket (bufs : List (List Packet)) (i : Nat) : Packet :=
  match bufs.get? i with
  | some (p :: _) => p
  | _ => Packet.Empty

/-- Timestamp stamping in the output handling of `RunDispatch`: a returned
value with timestamp 0 inherits the timestamp of `inputs[0]` (the first
collected argument) when there is at least one input. -/
def stampOutput (result : Packet) (inputs : List Packet) : Packet :=
  if result.timestamp = 0 ∧ ¬inputs.isEmpty then
    { result with timestamp := (inputs.headI).timestamp }
  else result

/-- The output-handling tail of one loop iteration of `RunDispatch`: a valued
result is stamped and written to the output slot (overwriting any earlier
write of the pass); a valueless result leaves the slot and the
`output_produced` flag unchanged. -/
def applyResult (st : PassState) (bufs : List (List Packet))
    (result : Packet) (inputs : List Packet) (stop : Bool) : PassState :=
  if result.has_value then
    { buffers := bufs, output := stampOutput result inputs,
      outputProduced := true, keep := st.keep && !stop }
  else
    { st with buffers := bufs, keep := st.keep && !stop }

/-- One iteration of the method loop in `BaseNode::RunDispatch` for method id
`m`: registry lookup, arity check, sync check, availability check, argument
collection (popping one packet per port), invocation, and output handling.
An `Except.error` carries the pass state at the point the C++ exception was
thrown (argument packets are already consumed at that point). -/
def dispatchStep (reg : MethodRegistry) (cfgs : List (Nat × MethodConfig))
    (portIds : List Nat) (m : Nat) (st : PassState) :
    Except PassState PassState :=
  let ports := portsForMethod portIds m
  match lookupMethod reg m with
  | none => .ok st
  | some meta =>
    if ports.length ≠ meta.argTypes.length then .ok st
    else
      let cfg := getMethodConfig cfgs m
      let afterSync : Option PassState :=
        if cfg.sync_enabled then
          if !portsHaveData st.buffers ports then some st
          else
            let minTs := minTimestamp st.buffers ports
            let maxTs := maxTimestamp st.buffers ports
            if maxTs ≠ minTs then
              some { st with buffers := dropEarliest st.buffers ports minTs }
            else none
        else none
      match afterSync with
      | some skipped => .ok skipped
      | none =>
        if !portsHaveData st.buffers ports then .ok st
        else
          let inputs := ports.map (frontPacket st.buffers)
          let bufs := ports.foldl
            (fun bs i => modifyIdx (fun b => b.tail) i bs) st.buffers
          match invokeMeta meta inputs with
          | .error _ => .error { st with buffers := bufs }
          | .ok (result, stop) => .ok (applyResult st bufs result inputs stop)

/-- The `for (method_id : order)` loop of `RunDispatch`; an error aborts the
remaining iterations (the C++ exception unwinds to the catch block). -/
def dispatchLoop (reg : MethodRegistry) (cfgs : List (Nat × MethodConfig))
    (portIds : List Nat) : List Nat → PassState → Except PassState PassState
  | [], st => .ok st
  | m :: rest, st =>
    match dispatchStep reg cfgs portIds m st with
    | .ok st1 => dispatchLoop reg cfgs portIds rest st1
    | .error st1 => .error st1

/-- The outcome of the `try` block of `BaseNode::RunDispatch`: buffer the
upstream outputs, then run the method loop. An `Except.error` is a C++
exception reaching the catch block. -/
def dispatchOutcome (reg : MethodRegistry) (s : NodeState)
    (upOuts : List Packet) (keep : Bool) : Except PassState PassState :=
  let s1 := bufferPhase s upOuts
  dispatchLoop reg s1.methodConfigs s1.portMethodIds
    (effectiveMethodOrder s1.methodOrder)
    { buffers := s1.buffers, output := s1.outputPacket,
      outputProduced := false, keep := keep }

/-- `BaseNode::RunDispatch` as a state transformer: run the buffered method
loop, then write the final output slot (empty when no method produced output,
and empty when an exception was caught -- no exception propagates out of the
task body). The second component is the graph's `keep_running` flag after the
pass. -/
def runDispatch (reg : MethodRegistry) (s : NodeState) (upOuts : List Packet)
    (keep : Bool) : NodeState × Bool :=
  let s1 := bufferPhase s upOuts
  match dispatchOutcome reg s upOuts keep with
  | .ok st =>
    ({ s1 with
        buffers := st.buffers,
        outputPacket := if st.outputProduced then st.output else Packet.Empty },
     st.keep)
  | .error st =>
    ({ s1 with buffers := st.buffers, outputPacket := Packet.Empty }, st.keep)

-- ========== Source loop ==========

/-- The source test in `BaseNode::build`: the node is a source exactly when
`ID_FORWARD` is registered with an empty argument-type list. -/
def isSource (reg : MethodRegistry) : Bool :=
  match lookupMethod reg ID_FORWARD with
  | some meta => meta.argTypes.isEmpty
  | none => false

/-- `BaseNode::RunSourceLoop`: invoke `forward` with no inputs; a valued
result with timestamp 0 is stamped with `NowNs()` (passed in as `now`) and
written to the output slot; an absent result, a missing registry entry, or a
caught exception leaves the slot empty. The second component is the graph's
`keep_running` flag after the pass. -/
def runSourceLoop (reg : MethodRegistry) (s : NodeState) (keep : Bool)
    (now : Int) : NodeState × Bool :=
  match lookupMethod reg ID_FORWARD with
  | none => ({ s with outputPacket := Packet.Empty }, keep)
  | some meta =>
    match invokeMeta meta [] with
    | .error _ => ({ s with outputPacket := Packet.Empty }, keep)
    | .ok (result, stop) =>
      let keep1 := keep && !stop
      if result.has_value then
        let stamped :=
          if result.timestamp = 0 then { result with timestamp := now }
          else result
        ({ s with outputPacket := stamped }, keep1)
      else
        ({ s with outputPacket := Packet.Empty }, keep1)

/-- The task body emplaced by `BaseNode::build`: `RunSourceLoop` when the
source test held at build time, `RunDispatch` otherwise. -/
def runPass (reg : MethodRegistry) (s : NodeState) (upOuts : List Packet)
    (keep : Bool) (now : Int) : NodeState × Bool :=
  if isSource reg then runSourceLoop reg s keep now
  else runDispatch reg s upOuts keep

-- ========== Lifecycle ==========

/-- `Node::Open(args)`: no-op when already opened; otherwise invoke `ID_OPEN`,
swallowing only the "Method not found" error; any other error is rethrown
(second component) before `opened_ = true` is reached. -/
def openNode (reg : MethodRegistry) (s : NodeState) (args : List Packet) :
    NodeState × Option DispatchError :=
  if s.opened then (s, none)
  else
    match invokeById reg ID_OPEN args with
    | .error .methodNotFound => ({ s with opened := true }, none)
    | .error e => (s, some e)
    | .ok _ => ({ s with opened := true }, none)

/-- `Node::Close(args)`: the mirror image of `Node::Open`. -/
def closeNode (reg : MethodRegistry) (s : NodeState) (args : List Packet) :
    NodeState × Option DispatchError :=
  if !s.opened then (s, none)
  else
    match invokeById reg ID_CLOSE args with
    | .error .methodNotFound => ({ s with opened := false }, none)
    | .error e => (s, some e)
    | .ok _ => ({ s with opened := false }, none)

-- ========== Executor ==========

/-- One node as seen by `Executor::open`/`Executor::close`: an identifying
label (for observing visit order), its class method registry, and its state. -/
structure NodeRec where
  label : Nat
  reg : MethodRegistry
  st : NodeState

/-- `Executor::open(nodes)`: call `Open()` on each node in list order. The
trace records the labels of the nodes whose `Open` ran, in order; an uncaught
error aborts the loop (remaining nodes untouched). -/
def executorOpen : List NodeRec → List NodeRec × List Nat × Option DispatchError
  | [] => ([], [], none)
  | n :: rest =>
    let (st1, err) := openNode n.reg n.st []
    match err with
    | some e => ({ n with st := st1 } :: rest, [n.label], some e)
    | none =>
      let (rest1, tr, e1) := executorOpen rest
      ({ n with st := st1 } :: rest1, n.label :: tr, e1)

/-- `Executor::close(nodes)`: call `Close()` on each node, iterating the list
front to back exactly as `Executor::open` does (there is no reverse
iteration in the source). -/
def executorClose : List NodeRec → List NodeRec × List Nat × Option DispatchError
  | [] => ([], [], none)
  | n :: rest =>
    let (st1, err) := closeNode n.reg n.st []
    match err with
    | some e => ({ n with st := st1 } :: rest, [n.label], some e)
    | none =>
      let (rest1, tr, e1) := executorClose rest
      ({ n with st := st1 } :: rest1, n.label :: tr, e1)

-- ========== Tuple registry ==========

/-- One `detail::TupleRegistryEntry`: the tuple arity and the element
descriptors that its factory closure captures (for `std::tuple<Ts...>` the
factory builds `TupleGetNode<Index, TupleT>` whose `forward` takes the tuple
and returns its `Index`-th element). -/
structure TupleEntry where
  size : Nat
  elems : List TypeKey
deriving Repr, DecidableEq

/-- The type signature of the one-method node fabricated by the factory:
`forward` argument types and return type (`TupleGetNode<Index, TupleT>`). -/
structure TupleGetNodeSig where
  forwardArgTypes : List TypeKey
  forwardReturnType : TypeKey
deriving Repr, DecidableEq

/-- The process-global `detail::TupleRegistry()` map, keyed by the tuple
type's hash. -/
abbrev TupleRegistryMap := List (TypeKey × TupleEntry)

/-- Map lookup on the tuple registry. -/
def lookupTuple (reg : TupleRegistryMap) (t : TypeKey) : Option TupleEntry :=
  match reg.find? (fun e => e.1 = t) with
  | some e => some e.2
  | none => none

/-- `RegisterTupleType<TupleT>()`: record arity and element descriptors under
the tuple type's key; a duplicate registration is a no-op (returns false).
The `static_assert` requires a non-empty tuple. -/
def registerTupleType (reg : TupleRegistryMap) (t : TypeKey)
    (elems : List TypeKey) : TupleRegistryMap × Bool :=
  match lookupTuple reg t with
  | some _ => (reg, false)
  | none => (reg ++ [(t, ⟨elems.length, elems⟩)], true)

/-- `detail::CreateTupleGetNodeForIndex<TupleT>(index)`: the fold over the
index sequence; a hit yields `TupleGetNode<Index, TupleT>` whose `forward`
takes the tuple type and returns the `index`-th element descriptor. -/
def createForIndex (t : TypeKey) (elems : List TypeKey) (index : Nat) :
    Except DispatchError TupleGetNodeSig :=
  match elems.get? index with
  | some e => .ok ⟨[t], e⟩
  | none => .error .tupleIndexUnsupported

/-- `CreateTupleGetNode(tuple_type, index)`: registry lookup (typed error on a
miss), bounds check against the recorded arity, then the factory. -/
def createTupleGetNode (reg : TupleRegistryMap) (t : TypeKey) (index : Nat) :
    Except DispatchError TupleGetNodeSig :=
  match lookupTuple reg t with
  | none => .error .tupleNotRegistered
  | some entry =>
    if index ≥ entry.size then .error .tupleIndexOutOfRange
    else createForIndex t entry.elems index

/-- `GetTupleSize(tuple_type)`: the recorded arity, or 0 when the tuple type
is not registered (no error is raised on this path). -/
def getTupleSize (reg : TupleRegistryMap) (t : TypeKey) : Nat :=
  match lookupTuple reg t with
  | none => 0
  | some entry => entry.size

-- ========== Concrete demonstration artifacts ==========

instance : Inhabited TVal := ⟨⟨tVoid, 0⟩⟩

/-- A converter registry holding the built-in int→double widening
(`AutoRegistrar<int, double>` in `RegisterArithmeticConversions`); the
value-level static_cast is abstracted as the identity. -/
def convC1 : TypeConverterRegistry := ⟨[⟨tInt32, tFloat64, fun d => d⟩]⟩

/-- A method taking one `double` argument and returning it. -/
def metaDouble1 : MethodMeta :=
  { argTypes := [tFloat64], returnType := tFloat64,
    run := fun args => .ok (some ⟨tFloat64, (args.headI).data⟩, false) }

/-- Registry of a node whose `forward(double)` returns a double. -/
def regC1 : MethodRegistry := [(ID_FORWARD, metaDouble1)]

/-- A node with a single port bound to `forward`. -/
def nodeC1 : NodeState := { portMethodIds := [ID_FORWARD], buffers := [[]] }

/-- An upstream output packet carrying an `int` payload. -/
def pktC1 : Packet := Packet.From ⟨tInt32, 7⟩ 3

/-- A method `forward(int, int) → int` returning its first argument. -/
def metaInt2 : MethodMeta :=
  { argTypes := [tInt32, tInt32], returnType := tInt32,
    run := fun args => .ok (some ⟨tInt32, (args.headI).data⟩, false) }

/-- Registry of a node whose `forward(int, int)` returns an int. -/
def regC2 : MethodRegistry := [(ID_FORWARD, metaInt2)]

/-- A node with two ports bound to `forward`. -/
def nodeC2 : NodeState :=
  { portMethodIds := [ID_FORWARD, ID_FORWARD], buffers := [[], []] }

/-- First upstream output: int payload, timestamp 5. -/
def pktA2 : Packet := Packet.From ⟨tInt32, 1⟩ 5

/-- Second upstream output: int payload, timestamp 10. -/
def pktB2 : Packet := Packet.From ⟨tInt32, 2⟩ 10

/-- The two-port `forward` node of `nodeC2` with sync enabled on `forward`. -/
def nodeC6 : NodeState :=
  { portMethodIds := [ID_FORWARD, ID_FORWARD], buffers := [[], []],
    methodConfigs := [(ID_FORWARD, ⟨true, 0⟩)] }

/-- A parameter-less `forward` returning the int 42 (a source method). -/
def metaSrc : MethodMeta :=
  { argTypes := [], returnType := tInt32,
    run := fun _ => .ok (some ⟨tInt32, 42⟩, false) }

/-- Registry of a source node (`forward` has zero declared arguments). -/
def regSrc : MethodRegistry := [(ID_FORWARD, metaSrc)]

/-- A parameter-less `forward` producing nothing this pass (void return,
i.e. an absent result). -/
def metaSrcAbsent : MethodMeta :=
  { argTypes := [], returnType := tVoid, run := fun _ => .ok (none, false) }

/-- Registry of a source whose `forward` produces no value. -/
def regSrcAbsent : MethodRegistry := [(ID_FORWARD, metaSrcAbsent)]

/-- An `Open()` method body that throws (an error other than
"Method not found"). -/
def metaOpenThrow : MethodMeta :=
  { argTypes := [], returnType := tVoid,
    run := fun _ => .error (.userError 3) }

/-- Registry of a node whose registered `Open` throws. -/
def regOpenThrow : MethodRegistry := [(ID_OPEN, metaOpenThrow)]

/-- An already-opened node with an empty method registry, labelled 0. -/
def nRecA : NodeRec := ⟨0, [], { opened := true }⟩

/-- An already-opened node with an empty method registry, labelled 1. -/
def nRecB : NodeRec := ⟨1, [], { opened := true }⟩

/-- A parameter-less `forward` method that throws. -/
def metaSrcThrow : MethodMeta :=
  { argTypes := [], returnType := tInt32,
    run := fun _ => .error (.userError 9) }

/-- Registry of a source whose `forward` throws. -/
def regSrcThrow : MethodRegistry := [(ID_FORWARD, metaSrcThrow)]

/-- First-occurrence deduplication: the `if id not in acc then push` fold used
by `SetMethodOrder` (and, one id at a time, by `RegisterMethodOrder`). -/
def dedupKeepFirst (ids : List Nat) : List Nat :=
  ids.foldl (fun acc id => if id ∈ acc then acc else acc ++ [id]) []

/-- The id resolution used by `add_upstream`: an empty method name means
`ID_FORWARD`, anything else hashes. -/
def upstreamIdOf (method : String) : Nat :=
  if method = "" then ID_FORWARD else hashString method

/-- The stored method order produced by a sequence of observed method ids
(each `add_upstream` call invokes `RegisterMethodOrder` once when the order
was not customized). -/
def buildDefaultOrder (ids : List Nat) : List Nat :=
  ids.foldl registerMethodOrder []

-- ========== Theorems ==========

/-- C1, counterexample: the upstream payload is an `int`, the declared
argument type is `double`, and the int→double converter is registered (the
spec-modelled `specCast` would succeed) -- yet `detail::CastArg` fails with a
type-mismatch error and the dispatch pass produces an empty output slot,
because the dispatch path consults only `Packet::cast` (exact match), never
the `TypeConverterRegistry`. -/
theorem c1_counterexample :
    convC1.has_converter tInt32 tFloat64 = true ∧
    specCast convC1 pktC1 tFloat64 = Except.ok ⟨tFloat64, 7⟩ ∧
    castArg pktC1 tFloat64 0 = Except.error (.typeMismatch 0) ∧
    (runDispatch regC1 nodeC1 [pktC1] true).1.outputPacket = Packet.Empty :=
  ⟨rfl, rfl, rfl, rfl⟩

/-- C1 (amended): dispatch-time argument conversion is exact-match only.
`detail::CastArg` (via `Packet::cast`) succeeds exactly when the input
packet's payload is present and its dynamic type equals the declared argument
type, in which case the payload is passed through unchanged; no registered
converter and no numeric coercion is applied on this path. -/
theorem c1_exact_cast_only (p : Packet) (t : TypeKey) (i : Nat) (v : TVal) :
    castArg p t i = Except.ok v ↔ p.payload = some v ∧ v.ty = t := by
  cases hp : p.payload with
  | none =>
    have hc : castArg p t i = Except.error (.typeMismatch i) := by
      simp [castArg, Packet.cast, hp]
    rw [hc]
    constructor
    · intro h
      exact Except.noConfusion h
    · rintro ⟨h1, h2⟩
      exact Option.noConfusion h1
  | some w =>
    by_cases hw : w.ty = t
    · have hc : castArg p t i = Except.ok w := by
        simp [castArg, Packet.cast, hp, hw]
      rw [hc]
      constructor
      · intro h
        injection h with hwv
        subst hwv
        exact ⟨rfl, hw⟩
      · rintro ⟨h1, h2⟩
        injection h1 with hwv
        subst hwv
        rfl
    · have hc : castArg p t i = Except.error (.typeMismatch i) := by
        simp [castArg, Packet.cast, hp, hw]
      rw [hc]
      constructor
      · intro h
        exact Except.noConfusion h
      · rintro ⟨h1, h2⟩
        injection h1 with hwv
        subst hwv
        exact absurd h2 hw

/-- Witness for c1_exact_cast_only at a concrete exact-typed packet. -/
theorem c1_witness :
    castArg (Packet.From ⟨tInt32, 7⟩ 5) tInt32 0 = Except.ok ⟨tInt32, 7⟩ :=
  (c1_exact_cast_only (Packet.From ⟨tInt32, 7⟩ 5) tInt32 0 ⟨tInt32, 7⟩).mpr
    ⟨rfl, rfl⟩

/-- C2, counterexample: a `forward(int, int)` invocation consumes inputs with
timestamps 5 (port 0) and 10 (port 1); the claim requires the output to carry
the maximum input timestamp 10, but `RunDispatch` stamps it with
`inputs[0].timestamp` ("Inherit from first arg"), i.e. 5. -/
theorem c2_counterexample :
    (runDispatch regC2 nodeC2 [pktA2, pktB2] true).1.outputPacket.has_value
        = true ∧
    (runDispatch regC2 nodeC2 [pktA2, pktB2] true).1.outputPacket.timestamp
        = 5 ∧
    pktA2.timestamp = 5 ∧ pktB2.timestamp = 10 ∧ max (5 : Int) 10 = 10 :=
  ⟨rfl, rfl, rfl, rfl, rfl⟩

/-- C2 (amended): when an invocation returns a value whose timestamp is 0 and
there is at least one input packet, the output is stamped with the timestamp
of the first collected input (the lowest-indexed port of the method), not the
maximum; with no inputs the timestamp stays 0 (`NowNs()` is not consulted in
non-source dispatch); the written output overwrites any earlier write of the
same pass (the new pass output is independent of the previously written
slot). -/
theorem c2_first_input_timestamp :
    (∀ (r p : Packet) (rest : List Packet),
        r.timestamp = 0 →
        (stampOutput r (p :: rest)).timestamp = p.timestamp) ∧
    (∀ r : Packet, (stampOutput r []).timestamp = r.timestamp) ∧
    (∀ (st : PassState) (bufs : List (List Packet)) (r : Packet)
        (inputs : List Packet) (stop : Bool),
        r.has_value = true →
        (applyResult st bufs r inputs stop).output = stampOutput r inputs ∧
        (applyResult st bufs r inputs stop).outputProduced = true) := by
  refine ⟨?_, ?_, ?_⟩
  · intro r p rest hr
    simp [stampOutput, hr, List.headI]
  · intro r
    simp [stampOutput]
  · intro st bufs r inputs stop hr
    constructor
    · simp [applyResult, hr]
    · simp [applyResult, hr]

/-- Witness for c2_first_input_timestamp at concrete packets. -/
theorem c2_witness :
    (stampOutput (Packet.From ⟨tInt32, 2⟩ 0) (pktA2 :: [pktB2])).timestamp
      = pktA2.timestamp :=
  c2_first_input_timestamp.1 (Packet.From ⟨tInt32, 2⟩ 0) pktA2 [pktB2] rfl

/-- C8, counterexample: for an unregistered tuple descriptor,
`CreateTupleGetNode` does throw a typed error, but `GetTupleSize` does not
fail at all -- it returns 0 (its return type is plain `size_t` and the
registry-miss branch is `return 0`), contradicting the claim that both
operations fail with a typed error. -/
theorem c8_counterexample :
    getTupleSize ([] : TupleRegistryMap) 99 = 0 ∧
    createTupleGetNode ([] : TupleRegistryMap) 99 0
      = Except.error .tupleNotRegistered :=
  ⟨rfl, rfl⟩

/-- C8 (amended): for an unregistered tuple descriptor,
`create_tuple_get_node` fails with a typed error while `get_tuple_size`
returns 0 (no error); for a tuple type registered with element descriptors
`elems` and every index `i < |elems|`, `create_tuple_get_node` returns a node
whose forward argument type equals the tuple descriptor and whose return type
equals the i-th element descriptor, and `get_tuple_size` returns the
arity `|elems|`. -/
theorem c8_tuple_registry :
    (∀ (reg : TupleRegistryMap) (t : TypeKey) (i : Nat),
        lookupTuple reg t = none →
        createTupleGetNode reg t i = Except.error .tupleNotRegistered ∧
        getTupleSize reg t = 0) ∧
    (∀ (reg : TupleRegistryMap) (t : TypeKey) (elems : List TypeKey)
        (i : Nat) (e : TypeKey),
        lookupTuple reg t = none → elems.get? i = some e →
        createTupleGetNode (registerTupleType reg t elems).1 t i
          = Except.ok ⟨[t], e⟩ ∧
        getTupleSize (registerTupleType reg t elems).1 t = elems.length) := by
  constructor
  · intro reg t i h
    exact ⟨by simp [createTupleGetNode, h], by simp [getTupleSize, h]⟩
  · intro reg t elems i e hmiss hget
    have hreg : (registerTupleType reg t elems).1
        = reg ++ [(t, ⟨elems.length, elems⟩)] := by
      simp [registerTupleType, hmiss]
    have hfind : lookupTuple (reg ++ [(t, ⟨elems.length, elems⟩)]) t
        = some ⟨elems.length, elems⟩ := by
      unfold lookupTuple at hmiss ⊢
      rw [List.find?_append]
      cases hf : reg.find? (fun e => e.1 = t) with
      | none => simp [hf] at hmiss ⊢
      | some x => rw [hf] at hmiss; simp at hmiss
    have hlt : i < elems.length := List.get?_eq_some.mp hget |>.1
    have hget2 : elems[i]? = some e := by
      rw [← List.get?_eq_getElem?]
      exact hget
    constructor
    · rw [hreg]
      simp [createTupleGetNode, hfind, Nat.not_le.mpr hlt, createForIndex, hget2]
    · rw [hreg]
      simp [getTupleSize, hfind]

/-- Witness for c8_tuple_registry: a pair type (int, string) registered under
key 7; index 1 projects to the string descriptor. -/
theorem c8_witness :
    createTupleGetNode (registerTupleType [] 7 [tInt32, tString]).1 7 1
      = Except.ok ⟨[7], tString⟩ ∧
    getTupleSize (registerTupleType [] 7 [tInt32, tString]).1 7 = 2 := by
  have h := c8_tuple_registry.2 [] 7 [tInt32, tString] 1 tString rfl rfl
  exact ⟨h.1, h.2⟩

/-- C10: for a node that is not yet opened, a registered `Open` method whose
invocation fails with an error other than "Method not found" makes
`Node::Open` rethrow and leaves the node unopened (the lifecycle state is
unchanged); a missing `Open` method is silently tolerated and the node still
becomes opened. -/
theorem c10_open_lifecycle :
    (∀ (reg : MethodRegistry) (s : NodeState) (args : List Packet)
        (e : DispatchError),
        s.opened = false →
        invokeById reg ID_OPEN args = Except.error e →
        e ≠ DispatchError.methodNotFound →
        openNode reg s args = (s, some e)) ∧
    (∀ (reg : MethodRegistry) (s : NodeState) (args : List Packet),
        s.opened = false →
        lookupMethod reg ID_OPEN = none →
        openNode reg s args = ({ s with opened := true }, none)) := by
  constructor
  · intro reg s args e hop hinv hne
    unfold openNode
    rw [hop, hinv]
    cases e with
    | methodNotFound => exact absurd rfl hne
    | argCountMismatch => rfl
    | typeMismatch i => rfl
    | userError c => rfl
    | tupleNotRegistered => rfl
    | tupleIndexOutOfRange => rfl
    | tupleIndexUnsupported => rfl
  · intro reg s args hop hmiss
    unfold openNode invokeById
    rw [hop, hmiss]
    rfl

/-- Witness for c10_open_lifecycle: a node whose `Open` throws stays closed
with the error rethrown; a node with no `Open` method opens silently. -/
theorem c10_witness :
    openNode regOpenThrow ({} : NodeState) []
      = (({} : NodeState), some (.userError 3)) ∧
    openNode ([] : MethodRegistry) ({} : NodeState) []
      = ({ ({} : NodeState) with opened := true }, none) :=
  ⟨c10_open_lifecycle.1 regOpenThrow {} [] (.userError 3) rfl rfl
      (by intro h; exact DispatchError.noConfusion h),
    c10_open_lifecycle.2 [] {} [] rfl rfl⟩

/-- C9, counterexample: closing the two-node list `[node 0, node 1]` visits
node 0 first and node 1 second -- the same order as `Executor::open` -- while
the claim requires the reverse order `[1, 0]`. Both nodes really are closed
(no error escapes). -/
theorem c9_counterexample :
    (executorClose [nRecA, nRecB]).2.1 = [0, 1] ∧
    (executorClose [nRecA, nRecB]).2.2 = none ∧
    ([0, 1] : List Nat) ≠ List.reverse [0, 1] :=
  ⟨rfl, rfl, by decide⟩

/-- C9 (amended): `Executor::open` calls `Open` on each node in the
user-declared list order, and `Executor::close` also calls `Close` in that
same user-declared order (not in reverse). -/
theorem c9_visit_order :
    (∀ nodes : List NodeRec,
        (∀ n ∈ nodes, (openNode n.reg n.st []).2 = none) →
        (executorOpen nodes).2.1 = nodes.map NodeRec.label) ∧
    (∀ nodes : List NodeRec,
        (∀ n ∈ nodes, (closeNode n.reg n.st []).2 = none) →
        (executorClose nodes).2.1 = nodes.map NodeRec.label) := by
  constructor
  · intro nodes h
    induction nodes with
    | nil => rfl
    | cons n rest ih =>
      have hn : (openNode n.reg n.st []).2 = none := h n (by simp)
      have hrest := ih (fun m hm => h m (by simp [hm]))
      cases hP : openNode n.reg n.st [] with
      | mk st1 err =>
        have herr : err = none := by rw [hP] at hn; exact hn
        subst herr
        cases hR : executorOpen rest with
        | mk rest1 tre =>
          cases tre with
          | mk tr e1 =>
            rw [hR] at hrest
            simp only [executorOpen, hP, hR]
            simpa using hrest
  · intro nodes h
    induction nodes with
    | nil => rfl
    | cons n rest ih =>
      have hn : (closeNode n.reg n.st []).2 = none := h n (by simp)
      have hrest := ih (fun m hm => h m (by simp [hm]))
      cases hP : closeNode n.reg n.st [] with
      | mk st1 err =>
        have herr : err = none := by rw [hP] at hn; exact hn
        subst herr
        cases hR : executorClose rest with
        | mk rest1 tre =>
          cases tre with
          | mk tr e1 =>
            rw [hR] at hrest
            simp only [executorClose, hP, hR]
            simpa using hrest

/-- Witness for c9_visit_order at a concrete two-node list (both nodes have
an empty registry, so Open and Close are silently tolerated). -/
theorem c9_witness :
    (executorOpen [⟨0, [], {}⟩, ⟨1, [], {}⟩]).2.1 = [0, 1] := by
  have h := c9_visit_order.1 [⟨0, [], {}⟩, ⟨1, [], {}⟩] ?hall
  · simpa using h
  case hall =>
    intro n hn
    simp only [List.mem_cons, List.not_mem_nil, or_false] at hn
    rcases hn with rfl | rfl
    · rfl
    · rfl

/-- C7: a node is a source exactly when its registered `ID_FORWARD` method has
zero declared arguments; the pass of such a node runs `RunSourceLoop`, which
invokes `forward` with no inputs; a valued result with timestamp 0 is stamped
with `NowNs()` and written to the output slot; an absent result (with no
`Stop()` call) leaves the slot empty and the graph's `keep_running` flag
untouched. -/
theorem c7_source_semantics :
    (∀ reg : MethodRegistry,
        isSource reg = true ↔
        ∃ meta, lookupMethod reg ID_FORWARD = some meta ∧
          meta.argTypes = []) ∧
    (∀ (reg : MethodRegistry) (s : NodeState) (upOuts : List Packet)
        (keep : Bool) (now : Int),
        isSource reg = true →
        runPass reg s upOuts keep now = runSourceLoop reg s keep now) ∧
    (∀ (reg : MethodRegistry) (s : NodeState) (keep : Bool) (now : Int)
        (meta : MethodMeta) (pkt : Packet) (stop : Bool),
        lookupMethod reg ID_FORWARD = some meta →
        invokeMeta meta [] = Except.ok (pkt, stop) →
        pkt.has_value = true → pkt.timestamp = 0 →
        runSourceLoop reg s keep now
          = ({ s with outputPacket := { pkt with timestamp := now } },
             keep && !stop)) ∧
    (∀ (reg : MethodRegistry) (s : NodeState) (keep : Bool) (now : Int)
        (meta : MethodMeta) (pkt : Packet),
        lookupMethod reg ID_FORWARD = some meta →
        invokeMeta meta [] = Except.ok (pkt, false) →
        pkt.has_value = false →
        runSourceLoop reg s keep now
          = ({ s with outputPacket := Packet.Empty }, keep)) := by
  refine ⟨?_, ?_, ?_, ?_⟩
  · intro reg
    unfold isSource
    cases hl : lookupMethod reg ID_FORWARD with
    | none =>
      simp
    | some meta =>
      simp only [List.isEmpty_iff]
      constructor
      · intro h
        exact ⟨meta, rfl, h⟩
      · rintro ⟨m, hm, h⟩
        injection hm with hmm
        subst hmm
        exact h
  · intro reg s upOuts keep now h
    unfold runPass
    rw [h]
    simp
  · intro reg s keep now meta pkt stop hl hinv hv ht
    simp [runSourceLoop, hl, hinv, hv, ht]
  · intro reg s keep now meta pkt hl hinv hv
    simp [runSourceLoop, hl, hinv, hv]

/-- Witness for c7_source_semantics: a concrete producing source and a
concrete absent-result source. -/
theorem c7_witness :
    isSource regSrc = true ∧
    runSourceLoop regSrc ({} : NodeState) true 777
      = ({ ({} : NodeState) with
            outputPacket := Packet.From ⟨tInt32, 42⟩ 777 }, true) ∧
    runSourceLoop regSrcAbsent ({} : NodeState) true 777
      = ({ ({} : NodeState) with outputPacket := Packet.Empty }, true) :=
  ⟨(c7_source_semantics.1 regSrc).mpr ⟨metaSrc, rfl, rfl⟩,
    c7_source_semantics.2.2.1 regSrc {} true 777 metaSrc
      (Packet.From ⟨tInt32, 42⟩ 0) false rfl rfl rfl rfl,
    c7_source_semantics.2.2.2 regSrcAbsent {} true 777 metaSrcAbsent
      Packet.Empty rfl rfl rfl⟩

/-- C3: a conversion failure or a method-body exception during a dispatch
pass is confined to the engine: `runDispatch` and `runSourceLoop` are total
state transformers (nothing propagates to the executor), and whenever the
pass's try-block outcome is an exception, the node's output slot is left
empty for that pass (in particular the failing method produced no output;
the C++ `std::cerr` logging is outside this model). -/
theorem c3_errors_confined :
    (∀ (reg : MethodRegistry) (s : NodeState) (upOuts : List Packet)
        (keep : Bool) (st : PassState),
        dispatchOutcome reg s upOuts keep = Except.error st →
        (runDispatch reg s upOuts keep).1.outputPacket = Packet.Empty) ∧
    (∀ (reg : MethodRegistry) (s : NodeState) (keep : Bool) (now : Int)
        (meta : MethodMeta) (e : DispatchError),
        lookupMethod reg ID_FORWARD = some meta →
        invokeMeta meta [] = Except.error e →
        (runSourceLoop reg s keep now).1.outputPacket = Packet.Empty) := by
  constructor
  · intro reg s upOuts keep st h
    unfold runDispatch
    rw [h]
  · intro reg s keep now meta e hl hinv
    simp [runSourceLoop, hl, hinv]

/-- Witness for c3_errors_confined: the concrete conversion-failure dispatch
of c1 (int payload into a double argument) and a concrete throwing source. -/
theorem c3_witness :
    (runDispatch regC1 nodeC1 [pktC1] true).1.outputPacket = Packet.Empty ∧
    (runSourceLoop regSrcThrow ({} : NodeState) true 5).1.outputPacket
      = Packet.Empty :=
  ⟨c3_errors_confined.1 regC1 nodeC1 [pktC1] true
      ⟨[[]], Packet.Empty, false, true⟩ rfl,
    c3_errors_confined.2 regSrcThrow {} true 5 metaSrcThrow
      (.userError 9) rfl rfl⟩

/-- Auxiliary: `List.get?` of a point modification. -/
theorem modifyIdx_get? (f : α → α) (j i : Nat) (l : List α) :
    (modifyIdx f j l).get? i
      = if i = j then (l.get? i).map f else l.get? i := by
  induction l generalizing i j with
  | nil => simp [modifyIdx]
  | cons x xs ih =>
    cases j with
    | zero =>
      cases i with
      | zero => simp [modifyIdx]
      | succ i => simp [modifyIdx]
    | succ j =>
      cases i with
      | zero => simp [modifyIdx]
      | succ i =>
        have h1 : (modifyIdx f (j + 1) (x :: xs)).get? (i + 1)
            = (modifyIdx f j xs).get? i := rfl
        have h2 : ((x :: xs) : List α).get? (i + 1) = xs.get? i := rfl
        rw [h1, h2, ih]
        by_cases hij : i = j
        · rw [if_pos hij, if_pos (by omega : i + 1 = j + 1)]
        · rw [if_neg hij, if_neg (by omega : ¬i + 1 = j + 1)]

/-- Auxiliary: the `getElem?` form of `modifyIdx_get?`. -/
theorem modifyIdx_getElem? (f : α → α) (j i : Nat) (l : List α) :
    (modifyIdx f j l)[i]? = if i = j then Option.map f l[i]? else l[i]? := by
  simp only [← List.get?_eq_getElem?]
  exact modifyIdx_get? f j i l

/-- C6: with sync enabled on a method whose connected ports all have data and
whose front timestamps are misaligned, the engine drops exactly the front
packet of every port of the method whose front timestamp equals the minimum
(`DropEarliest`), leaves every other buffered packet in place, and skips the
method for this pass (the method is not invoked and the pass output so far is
unchanged) -- in particular it is skipped when alignment is not reached after
the drop. -/
theorem c6_sync_drop :
    (∀ (portIds : List Nat) (m : Nat), (portsForMethod portIds m).Nodup) ∧
    (∀ (bufs : List (List Packet)) (ports : List Nat) (ts : Int) (i : Nat),
        ports.Nodup →
        (dropEarliest bufs ports ts).get? i
          = if i ∈ ports then (bufs.get? i).map (dropFrontIfMin ts)
            else bufs.get? i) ∧
    (∀ (reg : MethodRegistry) (cfgs : List (Nat × MethodConfig))
        (portIds : List Nat) (m : Nat) (st : PassState) (meta : MethodMeta),
        lookupMethod reg m = some meta →
        (portsForMethod portIds m).length = meta.argTypes.length →
        (getMethodConfig cfgs m).sync_enabled = true →
        portsHaveData st.buffers (portsForMethod portIds m) = true →
        maxTimestamp st.buffers (portsForMethod portIds m)
          ≠ minTimestamp st.buffers (portsForMethod portIds m) →
        dispatchStep reg cfgs portIds m st
          = Except.ok { st with
              buffers := dropEarliest st.buffers (portsForMethod portIds m)
                  (minTimestamp st.buffers (portsForMethod portIds m)) }) := by
  refine ⟨?_, ?_, ?_⟩
  · intro portIds m
    exact List.Nodup.filter _ (List.nodup_range _)
  · intro bufs ports ts i hnd
    revert hnd
    induction ports generalizing bufs with
    | nil =>
      intro hnd
      simp [dropEarliest]
    | cons p ps ih =>
      intro hnd
      have hp : p ∉ ps := (List.nodup_cons.mp hnd).1
      have hps : ps.Nodup := (List.nodup_cons.mp hnd).2
      have hstep : dropEarliest bufs (p :: ps) ts
          = dropEarliest (modifyIdx (dropFrontIfMin ts) p bufs) ps ts := rfl
      rw [hstep, ih _ hps]
      by_cases hip : i ∈ ps
      · have hne : i ≠ p := fun h => hp (h ▸ hip)
        simp [hip, hne, modifyIdx_getElem?, List.mem_cons]
      · by_cases hipp : i = p
        · subst hipp
          simp [hip, modifyIdx_getElem?, List.mem_cons]
        · simp [hip, hipp, modifyIdx_getElem?, List.mem_cons]
  · intro reg cfgs portIds m st meta hlk harity hsync hdata hne
    simp [dispatchStep, hlk, harity, hsync, hdata, hne]

/-- Witness for c6_sync_drop: a sync-enabled two-port `forward` whose front
timestamps are 5 and 10; only the port-0 front (the minimum, 5) is dropped
and the method is skipped. -/
theorem c6_witness :
    dispatchStep regC2 [(ID_FORWARD, ⟨true, 0⟩)] [ID_FORWARD, ID_FORWARD]
        ID_FORWARD ⟨[[pktA2], [pktB2]], Packet.Empty, false, true⟩
      = Except.ok ⟨[[], [pktB2]], Packet.Empty, false, true⟩ := by
  have h := c6_sync_drop.2.2 regC2 [(ID_FORWARD, ⟨true, 0⟩)]
    [ID_FORWARD, ID_FORWARD] ID_FORWARD
    ⟨[[pktA2], [pktB2]], Packet.Empty, false, true⟩ metaInt2
    rfl rfl rfl rfl (by decide)
  exact h.trans (by rfl)

/-- Auxiliary: the pop-front loop keeps the `k` most recent elements. -/
theorem trimToMax_eq_drop (k : Nat) (l : List Packet) :
    trimToMax k l = l.drop (l.length - k) := by
  induction l with
  | nil => simp [trimToMax]
  | cons p rest ih =>
    simp only [trimToMax]
    by_cases h : rest.length + 1 > k
    · rw [if_pos h, ih]
      have h2 : (p :: rest).length - k = (rest.length - k) + 1 := by
        simp only [List.length_cons]
        omega
      rw [h2, List.drop_succ_cons]
    · rw [if_neg h]
      have h2 : (p :: rest).length - k = 0 := by
        simp only [List.length_cons]
        omega
      rw [h2, List.drop_zero]

/-- Auxiliary: one buffering step for a valued packet, in closed form. -/
theorem bufferOne_valued (cfg : MethodConfig) (buf : List Packet) (p : Packet)
    (hk : 0 < cfg.max_queue) (hv : p.has_value = true) :
    bufferOne cfg buf p
      = (buf ++ [p]).drop (buf.length + 1 - cfg.max_queue) := by
  simp [bufferOne, hv, hk, trimToMax_eq_drop]

/-- Auxiliary: folding valued arrivals into a bounded buffer keeps exactly the
most recent `max_queue` of the concatenation. -/
theorem foldl_bufferOne (cfg : MethodConfig) (hk : 0 < cfg.max_queue) :
    ∀ (ps acc : List Packet), (∀ p ∈ ps, p.has_value = true) →
      acc.length ≤ cfg.max_queue →
      ps.foldl (bufferOne cfg) acc
        = (acc ++ ps).drop ((acc ++ ps).length - cfg.max_queue) := by
  intro ps
  induction ps with
  | nil =>
    intro acc hval hlen
    have h0 : (acc ++ ([] : List Packet)).length - cfg.max_queue = 0 := by
      simp
      omega
    rw [List.foldl_nil, h0, List.drop_zero, List.append_nil]
  | cons p rest ih =>
    intro acc hval hlen
    have hv : p.has_value = true := hval p (by simp)
    have hrest : ∀ q ∈ rest, q.has_value = true :=
      fun q hq => hval q (by simp [hq])
    rw [List.foldl_cons, bufferOne_valued cfg acc p hk hv]
    have hlen1 :
        ((acc ++ [p]).drop (acc.length + 1 - cfg.max_queue)).length
          ≤ cfg.max_queue := by
      simp only [List.length_drop, List.length_append, List.length_cons,
        List.length_nil]
      omega
    rw [ih _ hrest hlen1]
    have hd : acc.length + 1 - cfg.max_queue ≤ (acc ++ [p]).length := by
      simp only [List.length_append, List.length_cons, List.length_nil]
      omega
    rw [← List.drop_append_of_le_length hd, List.drop_drop]
    have hassoc : acc ++ [p] ++ rest = acc ++ p :: rest := by
      simp
    rw [hassoc]
    congr 1
    simp only [List.length_drop, List.length_append, List.length_cons,
      List.length_nil]
    omega

/-- Auxiliary: position-wise lookup through `zipWith3`. -/
theorem zipWith3_getElem? (f : α → β → γ → δ) (as : List α) (bs : List β)
    (cs : List γ) (i : Nat) :
    (zipWith3 f as bs cs)[i]?
      = (as[i]?).bind fun a => (bs[i]?).bind fun b => (cs[i]?).map (f a b) := by
  induction as generalizing bs cs i with
  | nil => simp [zipWith3]
  | cons a as ih =>
    cases bs with
    | nil =>
      cases h : (a :: as)[i]? <;> simp [zipWith3, h]
    | cons b bs =>
      cases cs with
      | nil =>
        cases h : (a :: as)[i]? <;> cases h2 : (b :: bs)[i]? <;>
          simp [zipWith3, h, h2]
      | cons c cs =>
        cases i with
        | zero => simp [zipWith3]
        | succ i => simpa [zipWith3] using ih bs cs i

/-- C5: input buffering honors `max_queue`: a buffering step on a port bound
to a method with `max_queue = K > 0` never grows that port's FIFO beyond `K`;
`K + 1` valued arrivals folded into an empty buffer leave exactly the `K`
most recent packets (the oldest are popped from the front); an upstream
output slot with no value causes no buffer append; and `BufferPortInputs`
applies exactly this per-port step, with the config looked up by the port's
bound method id. -/
theorem c5_bounded_queue :
    (∀ (cfg : MethodConfig) (buf : List Packet) (p : Packet),
        0 < cfg.max_queue → buf.length ≤ cfg.max_queue →
        (bufferOne cfg buf p).length ≤ cfg.max_queue) ∧
    (∀ (cfg : MethodConfig) (ps : List Packet),
        0 < cfg.max_queue → (∀ p ∈ ps, p.has_value = true) →
        ps.foldl (bufferOne cfg) []
          = ps.drop (ps.length - cfg.max_queue)) ∧
    (∀ (cfg : MethodConfig) (buf : List Packet) (p : Packet),
        p.has_value = false → bufferOne cfg buf p = buf) ∧
    (∀ (s : NodeState) (upOuts : List Packet) (i : Nat),
        (bufferPhase s upOuts).buffers[i]?
          = (s.portMethodIds[i]?).bind fun id =>
              ((padBuffers s.buffers s.portMethodIds.length)[i]?).bind
                fun buf =>
                  (upOuts[i]?).map
                    (bufferOne (getMethodConfig s.methodConfigs id) buf)) := by
  refine ⟨?_, ?_, ?_, ?_⟩
  · intro cfg buf p hk hlen
    by_cases hv : p.has_value = true
    · rw [bufferOne_valued cfg buf p hk hv]
      simp only [List.length_drop, List.length_append, List.length_cons,
        List.length_nil]
      omega
    · have hv2 : p.has_value = false := by
        cases hb : p.has_value
        · rfl
        · exact absurd hb hv
      simp [bufferOne, hv2]
      exact hlen
  · intro cfg ps hk hval
    have h := foldl_bufferOne cfg hk ps [] hval (by simp)
    simpa using h
  · intro cfg buf p h
    simp [bufferOne, h]
  · intro s upOuts i
    simp only [bufferPhase, zipWith3_getElem?]

/-- Witness for c5_bounded_queue: `max_queue = 2` with three valued arrivals
keeps the two most recent packets. -/
theorem c5_witness :
    [Packet.From ⟨tInt32, 1⟩ 1, Packet.From ⟨tInt32, 2⟩ 2,
        Packet.From ⟨tInt32, 3⟩ 3].foldl (bufferOne ⟨false, 2⟩) []
      = [Packet.From ⟨tInt32, 2⟩ 2, Packet.From ⟨tInt32, 3⟩ 3] := by
  have h := c5_bounded_queue.2.1 ⟨false, 2⟩
    [Packet.From ⟨tInt32, 1⟩ 1, Packet.From ⟨tInt32, 2⟩ 2,
      Packet.From ⟨tInt32, 3⟩ 3]
    (by decide)
    (by
      intro p hp
      simp only [List.mem_cons, List.not_mem_nil, or_false] at hp
      rcases hp with rfl | rfl | rfl <;> rfl)
  exact h.trans (by rfl)

/-- C4, counterexample: `SetMethodOrder(["ctrl"])` is given a list that does
not contain "forward", yet the stored order ends with `ID_FORWARD` --
`EnsureForwardLast` appends `ID_FORWARD` whenever the remaining list is
non-empty, so the "only if it is present in the given list" half of the claim
is false. -/
theorem c4_counterexample :
    setMethodOrder ["ctrl"] = [hashString "ctrl", ID_FORWARD] ∧
    hashString "ctrl" ≠ ID_FORWARD := by
  constructor
  · decide
  · decide

/-- Auxiliary: one-step unfolding of `dedupKeepFirst` at the back. -/
theorem dedupKeepFirst_concat (l : List Nat) (a : Nat) :
    dedupKeepFirst (l ++ [a])
      = if a ∈ dedupKeepFirst l then dedupKeepFirst l
        else dedupKeepFirst l ++ [a] := by
  simp [dedupKeepFirst, List.foldl_append]

/-- Auxiliary: `dedupKeepFirst` preserves membership. -/
theorem mem_dedupKeepFirst (l : List Nat) :
    ∀ x : Nat, x ∈ dedupKeepFirst l ↔ x ∈ l := by
  induction l using List.reverseRecOn with
  | nil =>
    intro x
    simp [dedupKeepFirst]
  | append_singleton l a ih =>
    intro x
    rw [dedupKeepFirst_concat]
    by_cases ha : a ∈ dedupKeepFirst l
    · rw [if_pos ha]
      have hal : a ∈ l := (ih a).mp ha
      rw [ih x]
      constructor
      · intro hx
        exact List.mem_append.mpr (Or.inl hx)
      · intro hx
        rcases List.mem_append.mp hx with h | h
        · exact h
        · simp at h
          subst h
          exact hal
    · rw [if_neg ha]
      simp [List.mem_append, ih x]

/-- Auxiliary: `ID_FORWARD` never survives the non-forward filter. -/
theorem forward_not_mem_dedup_filter (l : List Nat) :
    ID_FORWARD ∉ dedupKeepFirst (l.filter (fun id => id ≠ ID_FORWARD)) := by
  intro h
  rw [mem_dedupKeepFirst] at h
  have h2 := List.of_mem_filter h
  simp at h2

/-- Auxiliary: `EnsureForwardLast` in closed form (erase every `ID_FORWARD`,
then append one at the back when anything remains). -/
theorem ensureForwardLast_eq (l : List Nat) :
    ensureForwardLast l
      = if (l.filter (fun id => id ≠ ID_FORWARD)).isEmpty
        then l.filter (fun id => id ≠ ID_FORWARD)
        else l.filter (fun id => id ≠ ID_FORWARD) ++ [ID_FORWARD] := rfl

/-- Auxiliary: a non-empty `EnsureForwardLast` result ends in `ID_FORWARD`. -/
theorem ensureForwardLast_getLast (l : List Nat)
    (h : ensureForwardLast l ≠ []) :
    (ensureForwardLast l).getLast? = some ID_FORWARD := by
  by_cases he : (l.filter (fun id => id ≠ ID_FORWARD)).isEmpty
  · exfalso
    apply h
    rw [ensureForwardLast_eq, if_pos he, List.isEmpty_iff.mp he]
  · rw [ensureForwardLast_eq, if_neg he, List.getLast?_concat]

/-- Auxiliary: `EnsureForwardLast` leaves at most one `ID_FORWARD`. -/
theorem ensureForwardLast_count (l : List Nat) :
    (ensureForwardLast l).count ID_FORWARD ≤ 1 := by
  have hzero : (l.filter (fun id => id ≠ ID_FORWARD)).count ID_FORWARD = 0 := by
    rw [List.count_eq_zero]
    intro hmem
    have h2 := List.of_mem_filter hmem
    simp at h2
  rw [ensureForwardLast_eq]
  by_cases he : (l.filter (fun id => id ≠ ID_FORWARD)).isEmpty
  · rw [if_pos he, hzero]
    exact Nat.zero_le 1
  · rw [if_neg he, List.count_append, hzero]
    simp

/-- Auxiliary: inserting before the first `ID_FORWARD` past a forward-free
block. -/
theorem insertBeforeForward_spec (id : Nat) :
    ∀ (D rest : List Nat), ID_FORWARD ∉ D →
      insertBeforeForward id (D ++ ID_FORWARD :: rest)
        = D ++ id :: ID_FORWARD :: rest := by
  intro D
  induction D with
  | nil =>
    intro rest h
    simp [insertBeforeForward]
  | cons x xs ih =>
    intro rest h
    have hx : ¬x = ID_FORWARD := by
      intro hxx
      exact h (by simp [hxx])
    simp only [List.cons_append, insertBeforeForward, if_neg hx]
    exact congrArg (fun t => x :: t) (ih rest (fun hm => h (by simp [hm])))

/-- Auxiliary: `EnsureForwardLast` fixes a list that is already a forward-free
block followed by one `ID_FORWARD`. -/
theorem ensureForwardLast_of_not_mem (B : List Nat)
    (hB : ID_FORWARD ∉ B) (hne : B ≠ []) :
    ensureForwardLast (B ++ [ID_FORWARD]) = B ++ [ID_FORWARD] := by
  have hf : (B ++ [ID_FORWARD]).filter (fun id => id ≠ ID_FORWARD) = B := by
    rw [List.filter_append]
    have h1 : B.filter (fun id => id ≠ ID_FORWARD) = B := by
      rw [List.filter_eq_self]
      intro a ha
      simp
      intro haa
      exact hB (haa ▸ ha)
    have h2 : ([ID_FORWARD] : List Nat).filter (fun id => id ≠ ID_FORWARD)
        = [] := by simp
    rw [h1, h2, List.append_nil]
  have hemp : B.isEmpty = false := by
    cases B with
    | nil => exact absurd rfl hne
    | cons x xs => rfl
  rw [ensureForwardLast_eq, hf, if_neg (by simp [hemp])]

/-- Auxiliary: one-step unfolding of `buildDefaultOrder` at the back. -/
theorem buildDefaultOrder_concat (ids : List Nat) (id : Nat) :
    buildDefaultOrder (ids ++ [id])
      = registerMethodOrder (buildDefaultOrder ids) id := by
  simp [buildDefaultOrder, List.foldl_append]

/-- Auxiliary: `RegisterMethodOrder` in closed form. -/
theorem registerMethodOrder_eq (order : List Nat) (id : Nat) :
    registerMethodOrder order id
      = if id ∈ order then order
        else if id = ID_FORWARD then order ++ [id]
        else ensureForwardLast
          (if ID_FORWARD ∈ order then insertBeforeForward id order
           else order ++ [id]) := rfl

/-- Auxiliary: the default order built from observed ids is the first-seen
deduplication of the non-forward ids followed by `ID_FORWARD`. -/
theorem buildDefaultOrder_eq (ids : List Nat) :
    buildDefaultOrder ids
      = if ids.isEmpty then []
        else dedupKeepFirst (ids.filter (fun x => x ≠ ID_FORWARD))
            ++ [ID_FORWARD] := by
  induction ids using List.reverseRecOn with
  | nil => rfl
  | append_singleton l id ih =>
    rw [buildDefaultOrder_concat, ih]
    by_cases hle : l.isEmpty
    · have hl : l = [] := List.isEmpty_iff.mp hle
      subst hl
      rw [if_pos (by rfl : ([] : List Nat).isEmpty = true)]
      by_cases hid : id = ID_FORWARD
      · subst hid
        decide
      · have hstep : registerMethodOrder [] id = ensureForwardLast [id] := by
          rw [registerMethodOrder_eq, if_neg (List.not_mem_nil id),
            if_neg hid, if_neg (List.not_mem_nil ID_FORWARD)]
          rfl
        rw [hstep]
        have h1 : ensureForwardLast [id] = [id] ++ [ID_FORWARD] :=
          ensureForwardLast_of_not_mem [id]
            (by
              intro hm
              simp at hm
              exact hid hm.symm)
            (by simp)
        rw [h1]
        have h2 : (([] : List Nat) ++ [id]).filter (fun x => x ≠ ID_FORWARD)
            = [id] := by simp [hid]
        rw [if_neg (by simp), h2]
        rfl
    · rw [if_neg hle, if_neg (by simp : ¬((l ++ [id]).isEmpty = true))]
      have hfwdD : ID_FORWARD
          ∉ dedupKeepFirst (l.filter (fun x => x ≠ ID_FORWARD)) :=
        forward_not_mem_dedup_filter l
      by_cases hid : id = ID_FORWARD
      · subst hid
        have hmem : ID_FORWARD
            ∈ dedupKeepFirst (l.filter (fun x => x ≠ ID_FORWARD))
              ++ [ID_FORWARD] := by simp
        have hL : registerMethodOrder
            (dedupKeepFirst (l.filter (fun x => x ≠ ID_FORWARD))
              ++ [ID_FORWARD]) ID_FORWARD
            = dedupKeepFirst (l.filter (fun x => x ≠ ID_FORWARD))
              ++ [ID_FORWARD] := by
          rw [registerMethodOrder_eq, if_pos hmem]
        rw [hL]
        have hfil : (l ++ [ID_FORWARD]).filter (fun x => x ≠ ID_FORWARD)
            = l.filter (fun x => x ≠ ID_FORWARD) := by
          simp [List.filter_append]
        rw [hfil]
      · have hfil : (l ++ [id]).filter (fun x => x ≠ ID_FORWARD)
            = l.filter (fun x => x ≠ ID_FORWARD) ++ [id] := by
          simp [List.filter_append, hid]
        rw [hfil, dedupKeepFirst_concat]
        by_cases hmem : id ∈ dedupKeepFirst (l.filter (fun x => x ≠ ID_FORWARD))
        · rw [if_pos hmem]
          have hmem2 : id ∈ dedupKeepFirst (l.filter (fun x => x ≠ ID_FORWARD))
              ++ [ID_FORWARD] := List.mem_append.mpr (Or.inl hmem)
          rw [registerMethodOrder_eq, if_pos hmem2]
        · rw [if_neg hmem]
          have hmem2 : id ∉ dedupKeepFirst (l.filter (fun x => x ≠ ID_FORWARD))
              ++ [ID_FORWARD] := by
            intro hm
            rcases List.mem_append.mp hm with h | h
            · exact hmem h
            · simp at h
              exact hid h
          have hfwdmem : ID_FORWARD
              ∈ dedupKeepFirst (l.filter (fun x => x ≠ ID_FORWARD))
                ++ [ID_FORWARD] := by simp
          have hL : registerMethodOrder
              (dedupKeepFirst (l.filter (fun x => x ≠ ID_FORWARD))
                ++ [ID_FORWARD]) id
              = ensureForwardLast (insertBeforeForward id
                  (dedupKeepFirst (l.filter (fun x => x ≠ ID_FORWARD))
                    ++ [ID_FORWARD])) := by
            rw [registerMethodOrder_eq, if_neg hmem2, if_neg hid,
              if_pos hfwdmem]
          rw [hL]
          have hins : insertBeforeForward id
              (dedupKeepFirst (l.filter (fun x => x ≠ ID_FORWARD))
                ++ [ID_FORWARD])
              = (dedupKeepFirst (l.filter (fun x => x ≠ ID_FORWARD)) ++ [id])
                ++ [ID_FORWARD] := by
            have h := insertBeforeForward_spec id
              (dedupKeepFirst (l.filter (fun x => x ≠ ID_FORWARD))) [] hfwdD
            simpa using h
          rw [hins]
          exact ensureForwardLast_of_not_mem
            (dedupKeepFirst (l.filter (fun x => x ≠ ID_FORWARD)) ++ [id])
            (by
              intro hm
              rcases List.mem_append.mp hm with h | h
              · exact hfwdD h
              · simp at h
                exact hid h.symm)
            (by simp)

/-- Auxiliary: `SetMethodOrder` in closed form. -/
theorem setMethodOrder_eq (names : List String) :
    setMethodOrder names
      = ensureForwardLast (dedupKeepFirst (names.map methodIdOf)) := by
  unfold setMethodOrder dedupKeepFirst
  rw [List.foldl_map]

/-- Auxiliary: folding `add_upstream` calls grows the default method order by
one `RegisterMethodOrder` step per connection while the order is not
customized. -/
theorem addUpstream_methodOrder (methods : List String) :
    ∀ s : NodeState, s.methodOrderCustomized = false →
      (methods.foldl addUpstream s).methodOrder
        = (methods.map upstreamIdOf).foldl registerMethodOrder
            s.methodOrder := by
  induction methods with
  | nil =>
    intro s h
    rfl
  | cons m ms ih =>
    intro s h
    have h1 : (addUpstream s m).methodOrderCustomized = false := by
      simp [addUpstream, h]
    have h2 : (addUpstream s m).methodOrder
        = registerMethodOrder s.methodOrder (upstreamIdOf m) := by
      simp [addUpstream, h, upstreamIdOf]
    rw [List.foldl_cons, List.map_cons, List.foldl_cons,
      ih (addUpstream s m) h1, h2]

/-- C4 (amended): the default method order is the insertion order of the
method ids observed through `add_upstream`, deduplicated, with `ID_FORWARD`
appended last whenever the order is non-empty; an explicit `SetMethodOrder`
overrides the order with the deduplicated given ids and likewise always
forces `ID_FORWARD` last whenever the resulting list is non-empty -- even
when "forward" is absent from the given list (a list naming only "forward"
leaves an empty stored order, and the effective order then falls back to
`[ID_FORWARD]`); `ID_FORWARD` occurs at most once and, when present, last,
also in the effective order used by the pass. -/
theorem c4_method_order :
    (∀ methods : List String,
        ((methods.foldl addUpstream {}).methodOrder)
          = buildDefaultOrder (methods.map upstreamIdOf)) ∧
    (∀ ids : List Nat,
        buildDefaultOrder ids
          = if ids.isEmpty then []
            else dedupKeepFirst (ids.filter (fun x => x ≠ ID_FORWARD))
                ++ [ID_FORWARD]) ∧
    (∀ names : List String,
        setMethodOrder names
          = ensureForwardLast (dedupKeepFirst (names.map methodIdOf))) ∧
    (∀ l : List Nat, ensureForwardLast l ≠ [] →
        (ensureForwardLast l).getLast? = some ID_FORWARD) ∧
    (∀ l : List Nat, (ensureForwardLast l).count ID_FORWARD ≤ 1) ∧
    (∀ order : List Nat,
        (ID_FORWARD ∈ order → order.getLast? = some ID_FORWARD) →
        ID_FORWARD ∈ effectiveMethodOrder order →
        (effectiveMethodOrder order).getLast? = some ID_FORWARD) := by
  refine ⟨?_, buildDefaultOrder_eq, setMethodOrder_eq,
    ensureForwardLast_getLast, ensureForwardLast_count, ?_⟩
  · intro methods
    rw [addUpstream_methodOrder methods {} rfl]
    rfl
  · intro order h hmem
    by_cases ho : order.isEmpty
    · simp [effectiveMethodOrder, ho]
    · have he : effectiveMethodOrder order = order := by
        simp [effectiveMethodOrder, ho]
      rw [he] at hmem ⊢
      exact h hmem

/-- Witness for c4_method_order: the custom order `["ctrl"]` still ends in
`ID_FORWARD`. -/
theorem c4_witness :
    (setMethodOrder ["ctrl"]).getLast? = some ID_FORWARD := by
  rw [c4_method_order.2.2.1 ["ctrl"]]
  exact c4_method_order.2.2.2.1 (dedupKeepFirst (["ctrl"].map methodIdOf))
    (by decide)
